import Mathlib

/-!
# Solidity upgrade assistant and CHC encoder: embedding and properties

The first part embeds `tools/solidity_upgrade/SolidityUpgrade.cpp`
(`fileReader`, `runUpgrade`, `analyzeAndUpgrade`, `applyChange`, `resetCompiler`,
`tryCompile`, `writeInputFile`) as state-passing functions over the members of
`class SolidityUpgrade`.  Console output (`log()`, `out()`, `error()`) is not part of
the state.  Collaborators whose code lives outside the embedded files (the compiler
stack, `UpgradeChange::apply`, `Upgrade060::analyze`, Boost.Filesystem) are fields of
`Env`.

The second part covers `libsolidity/formal/CHC.h`.  Only the class declaration is
available, so the member functions are modelled from the specification text and the
declaration comments.
-/

namespace SolidityUpgrade

/-! ## Data model -/

/-- Levels of a change, `UpgradeChange::Level`, as tested by `analyzeAndUpgrade`. -/
inductive Level where
  | Safe
  | Unsafe
  deriving DecidableEq, Repr

/-- An `UpgradeChange` as constructed in `Upgrade060.cpp`:
`UpgradeChange{level, location, codeAfter}`.  The field `m_source` is the text that
`source()` returns. -/
structure UpgradeChange where
  m_level : Level
  m_locationStart : Nat
  m_locationEnd : Nat
  m_source : String
  m_patch : String
  deriving DecidableEq, Repr

/-- Accessor `UpgradeChange::level()`. -/
def UpgradeChange.level (c : UpgradeChange) : Level := c.m_level

/-- Accessor `UpgradeChange::source()`. -/
def UpgradeChange.source (c : UpgradeChange) : String := c.m_source

/-- The type `std::map<std::string, std::string>` of `m_sourceCodes`, as the list of its
entries in iteration order. -/
abbrev SourceMap := List (String × String)

/-- Lookup of a key in a `SourceMap`. -/
def SourceMap.find : SourceMap → String → Option String
  | [], _ => none
  | (k, v) :: rest, key => if key = k then some v else SourceMap.find rest key

/-- The statement `m[key] = value` on a `std::map`: the entry of `key` is overwritten when
present, otherwise a new entry is inserted at its place in key order. -/
def SourceMap.assign : SourceMap → String → String → SourceMap
  | [], key, value => [(key, value)]
  | (k, v) :: rest, key, value =>
    if key = k then (k, value) :: rest
    else if key < k then (key, value) :: (k, v) :: rest
    else (k, v) :: SourceMap.assign rest key value

/-- A path of `boost::filesystem`, as the sequence of components that iteration from
`begin()` to `end()` yields. -/
abbrev FsPath := List String

/-- The command line options read through `m_args.count(...)`. -/
structure Args where
  dryRun : Bool
  applyUnsafe : Bool
  verbose : Bool
  ignoreMissing : Bool
  allowPaths : Option String
  deriving DecidableEq, Repr

/-- The value `ReadCallback::Result{success, responseOrErrorMessage}`. -/
structure ReadResult where
  success : Bool
  responseOrErrorMessage : String
  deriving DecidableEq, Repr

/-- What the two `catch` clauses of the read callback distinguish: a `dev::Exception`
with its diagnostic information, or anything else. -/
inductive Thrown where
  | devException (diagnostic : String)
  | other
  deriving DecidableEq, Repr

/-- What `SolidityUpgrade` observes of `m_compiler`: the sources set by `setSources`,
whether `state() >= CompilerStack::State::AnalysisPerformed`, and `errors()`. -/
structure CompilerStack where
  sources : SourceMap
  analysisPerformed : Bool
  errors : List String
  deriving DecidableEq, Repr

/-- Calls made by the tool, recorded in order of execution. -/
inductive Event where
  | analyze (path : String)
  | applyChange (path : String) (source : String)
  | writeInputFile (path : String) (source : String)
  | changesCleared
  | resetCompiler (sources : SourceMap)
  | tryCompile
  deriving DecidableEq, Repr

/-- Collaborators outside the embedded files. -/
structure Env where
  /-- The effect of `UpgradeChange::apply()` on a change. -/
  applyPatch : UpgradeChange → UpgradeChange
  /-- The changes that `Upgrade060::analyze(ast(path), source, changes)` pushes back. -/
  upgrade060 : CompilerStack → String → String → List UpgradeChange
  /-- The paths for which the compiler invokes the read callback while compiling. -/
  requestedImports : SourceMap → List String
  /-- Outcome of `parse()`, `analyze()` and `compile()`: whether analysis was performed
  and the error list. -/
  compileOutcome : SourceMap → List ReadResult → Bool × List String
  /-- Function `boost::filesystem::weakly_canonical`. -/
  weaklyCanonical : String → Except Thrown FsPath
  /-- Function `boost::filesystem::exists`. -/
  fileExists : FsPath → Except Thrown Bool
  /-- Function `boost::filesystem::is_regular_file`. -/
  isRegularFile : FsPath → Except Thrown Bool
  /-- Function `dev::readFileAsString`. -/
  readFileAsString : FsPath → Except Thrown String
  /-- Member `path.generic_string()` of the path built from the callback argument. -/
  genericString : String → String
  /-- The components of `boost::filesystem::path(text)`. -/
  pathComponents : String → FsPath
  /-- Member `remove_filename()` of a path. -/
  removeFilename : FsPath → FsPath

/-- The members of `SolidityUpgrade`, the files written so far and the event record. -/
structure State where
  m_args : Args
  m_sourceCodes : SourceMap
  m_compiler : CompilerStack
  m_allowedDirectories : List FsPath
  files : SourceMap
  trace : List Event

/-! ## The allowed directories of `parseArguments` -/

/-- The part of `parseArguments` that fills `m_allowedDirectories`: without
`--allow-paths` nothing is added; otherwise the value is split at commas and every path,
with a last component `.` removed, is pushed back. -/
def parseAllowedDirectories (env : Env) (st : State) : State :=
  match st.m_args.allowPaths with
  | none => st
  | some value =>
    { st with m_allowedDirectories := st.m_allowedDirectories ++
        (value.splitOn ",").map (fun path =>
          let filesystem_path := env.pathComponents path
          if filesystem_path.getLast? = some "." then env.removeFilename filesystem_path
          else filesystem_path) }

/-! ## The read callback of `processInput` -/

/-- The call `std::equal(first1, last1, first2)` on component sequences. -/
def stdEqual : FsPath → FsPath → Bool
  | [], _ => true
  | _ :: _, [] => false
  | a :: as, b :: bs => a == b && stdEqual as bs

/-- The condition of the `if` inside the loop over `m_allowedDirectories`. -/
def dirIsPrefix (allowedDir canonicalPath : FsPath) : Bool :=
  decide (allowedDir.length ≤ canonicalPath.length) && stdEqual allowedDir canonicalPath

/-- The loop computing `isAllowed`, leaving at the first matching directory. -/
def isAllowed : List FsPath → FsPath → Bool
  | [], _ => false
  | allowedDir :: rest, canonicalPath =>
    if dirIsPrefix allowedDir canonicalPath then true else isAllowed rest canonicalPath

/-- The result returned for a path outside of every allowed directory. -/
def outsideAllowed : ReadResult :=
  { success := false, responseOrErrorMessage := "File outside of allowed directories." }

/-- The results built by the two `catch` clauses. -/
def caught : Thrown → ReadResult
  | Thrown.devException diagnostic =>
    { success := false, responseOrErrorMessage := "Exception in read callback: " ++ diagnostic }
  | Thrown.other =>
    { success := false, responseOrErrorMessage := "Unknown exception in read callback." }

/-- The lambda `fileReader` of `processInput`. -/
def fileReader (env : Env) (st : State) (_path : String) : ReadResult × State :=
  match env.weaklyCanonical _path with
  | Except.error e => (caught e, st)
  | Except.ok canonicalPath =>
    if !isAllowed st.m_allowedDirectories canonicalPath then
      (outsideAllowed, st)
    else
      match env.fileExists canonicalPath with
      | Except.error e => (caught e, st)
      | Except.ok false => ({ success := false, responseOrErrorMessage := "File not found." }, st)
      | Except.ok true =>
        match env.isRegularFile canonicalPath with
        | Except.error e => (caught e, st)
        | Except.ok false =>
          ({ success := false, responseOrErrorMessage := "Not a valid file." }, st)
        | Except.ok true =>
          match env.readFileAsString canonicalPath with
          | Except.error e => (caught e, st)
          | Except.ok contents =>
            ({ success := true, responseOrErrorMessage := contents },
              { st with m_sourceCodes :=
                  st.m_sourceCodes.assign (env.genericString _path) contents })

/-! ## Applying changes -/

/-- Member `writeInputFile`: truncates the file at `_path` and writes `_source`. -/
def writeInputFile (st : State) (_path _source : String) : State :=
  { st with
    files := st.files.assign _path _source
    trace := st.trace ++ [Event.writeInputFile _path _source] }

/-- Member `applyChange`.  Returns the new state and the change after `apply()`. -/
def applyChange (env : Env) (st : State) (_sourceCode : String × String)
    (_change : UpgradeChange) : State × UpgradeChange :=
  let dryRun := st.m_args.dryRun
  let applied := env.applyPatch _change
  let st1 : State :=
    { st with
      m_sourceCodes := st.m_sourceCodes.assign _sourceCode.1 applied.source
      trace := st.trace ++ [Event.applyChange _sourceCode.1 applied.source] }
  if !dryRun then (writeInputFile st1 _sourceCode.1 applied.source, applied)
  else (st1, applied)

/-- The change list after the call of `Upgrade060::analyze` in `analyzeAndUpgrade`. -/
def analysedChanges (env : Env) (st : State) (_sourceCode : String × String)
    (_changes : List UpgradeChange) : List UpgradeChange :=
  if st.m_compiler.analysisPerformed then
    _changes ++ env.upgrade060 st.m_compiler _sourceCode.1 _sourceCode.2
  else _changes

/-- Member `analyzeAndUpgrade`.  Returns the result, the new state and the change list. -/
def analyzeAndUpgrade (env : Env) (st : State) (_sourceCode : String × String)
    (_changes : List UpgradeChange) : Bool × State × List UpgradeChange :=
  let applyUnsafe := st.m_args.applyUnsafe
  let st0 : State := { st with trace := st.trace ++ [Event.analyze _sourceCode.1] }
  match analysedChanges env st _sourceCode _changes with
  | [] => (false, st0, [])
  | change :: rest =>
    match change.level with
    | Level.Safe =>
      let r := applyChange env st0 _sourceCode change
      (true, r.1, r.2 :: rest)
    | Level.Unsafe =>
      if applyUnsafe then
        let r := applyChange env st0 _sourceCode change
        (true, r.1, r.2 :: rest)
      else (false, st0, change :: rest)

/-! ## The upgrade loop -/

/-- Member `resetCompiler()`: resets the compiler stack and sets `m_sourceCodes`. -/
def resetCompiler (st : State) : State :=
  { st with
    m_compiler := { sources := st.m_sourceCodes, analysisPerformed := false, errors := [] }
    trace := st.trace ++ [Event.resetCompiler st.m_sourceCodes] }

/-- The read callback invoked for each of the given paths in turn. -/
def readAll (env : Env) : List String → State → List ReadResult × State
  | [], st => ([], st)
  | p :: ps, st =>
    let r := fileReader env st p
    let rs := readAll env ps r.2
    (r.1 :: rs.1, rs.2)

/-- Member `tryCompile`: runs the compilation phases on the sources of the compiler. -/
def tryCompile (env : Env) (st : State) : State :=
  let sources := st.m_compiler.sources
  let reads := readAll env (env.requestedImports sources) st
  let outcome := env.compileOutcome sources reads.1
  { reads.2 with
    m_compiler := { sources := sources, analysisPerformed := outcome.1, errors := outcome.2 }
    trace := reads.2.trace ++ [Event.tryCompile] }

theorem SourceMap.find_assign_same (m : SourceMap) (key value : String) :
    (m.assign key value).find key = some value := by
  induction m with
  | nil => simp [SourceMap.assign, SourceMap.find]
  | cons e rest ih =>
    obtain ⟨k, v⟩ := e
    by_cases h1 : key = k
    · simp [SourceMap.assign, SourceMap.find, h1]
    · by_cases h2 : key < k
      · simp [SourceMap.assign, SourceMap.find, h1, h2]
      · simp [SourceMap.assign, SourceMap.find, h1, h2, ih]

theorem SourceMap.find_assign_other (m : SourceMap) (key value other : String)
    (h : other ≠ key) : (m.assign key value).find other = m.find other := by
  induction m with
  | nil => simp [SourceMap.assign, SourceMap.find, h]
  | cons e rest ih =>
    obtain ⟨k, v⟩ := e
    by_cases h1 : key = k
    · subst h1
      simp [SourceMap.assign, SourceMap.find, h]
    · by_cases h2 : key < k
      · simp [SourceMap.assign, SourceMap.find, h1, h2, h]
      · simp [SourceMap.assign, SourceMap.find, h1, h2, ih]

theorem SourceMap.mem_assign_other (m : SourceMap) (key value : String)
    (e : String × String) (h : e.1 ≠ key) : e ∈ m.assign key value ↔ e ∈ m := by
  induction m with
  | nil =>
    obtain ⟨a, b⟩ := e
    simp only [SourceMap.assign, List.mem_singleton, Prod.mk.injEq, List.not_mem_nil, iff_false]
    intro hh
    exact h hh.1
  | cons x rest ih =>
    obtain ⟨k, v⟩ := x
    obtain ⟨a, b⟩ := e
    have ha : a ≠ key := h
    by_cases h1 : key = k
    · subst h1
      simp [SourceMap.assign, ha]
    · by_cases h2 : key < k
      · simp [SourceMap.assign, h1, h2, ha]
      · simp [SourceMap.assign, h1, h2, ih]

/-! ## Lemmas on the allowed-directory test -/

theorem stdEqual_iff_isPrefix (allowedDir canonicalPath : FsPath) :
    stdEqual allowedDir canonicalPath = true ↔ allowedDir <+: canonicalPath := by
  induction allowedDir generalizing canonicalPath with
  | nil => simp [stdEqual]
  | cons a as ih =>
    cases canonicalPath with
    | nil => simp [stdEqual]
    | cons b bs => simp [stdEqual, List.cons_prefix_cons, ih]

theorem dirIsPrefix_iff_isPrefix (allowedDir canonicalPath : FsPath) :
    dirIsPrefix allowedDir canonicalPath = true ↔ allowedDir <+: canonicalPath := by
  unfold dirIsPrefix
  rw [Bool.and_eq_true, stdEqual_iff_isPrefix, decide_eq_true_iff]
  constructor
  · exact fun h => h.2
  · exact fun h => ⟨h.length_le, h⟩

theorem isAllowed_iff_exists_isPrefix (dirs : List FsPath) (canonicalPath : FsPath) :
    isAllowed dirs canonicalPath = true ↔ ∃ d ∈ dirs, d <+: canonicalPath := by
  induction dirs with
  | nil => simp [isAllowed]
  | cons d rest ih =>
    by_cases h : dirIsPrefix d canonicalPath = true
    · have hp := (dirIsPrefix_iff_isPrefix d canonicalPath).1 h
      simp [isAllowed, h, hp]
    · have hp : ¬ d <+: canonicalPath := fun hp => h ((dirIsPrefix_iff_isPrefix d canonicalPath).2 hp)
      simp [isAllowed, h, hp, ih]

theorem caught_ne_outsideAllowed (e : Thrown) : caught e ≠ outsideAllowed := by
  cases e with
  | devException diagnostic =>
    intro h
    have h2 := congrArg (fun r => r.responseOrErrorMessage.data.head?) h
    simp [caught, outsideAllowed, String.data_append] at h2
  | other =>
    simp [caught, outsideAllowed]

/-! ## Lemmas on `applyChange` -/

theorem applyChange_trace (env : Env) (st : State) (sc : String × String)
    (change : UpgradeChange) :
    (applyChange env st sc change).1.trace =
      st.trace ++ Event.applyChange sc.1 (env.applyPatch change).source ::
        (if st.m_args.dryRun then []
         else [Event.writeInputFile sc.1 (env.applyPatch change).source]) := by
  cases h : st.m_args.dryRun <;> simp [applyChange, writeInputFile, h]

theorem applyChange_sourceCodes (env : Env) (st : State) (sc : String × String)
    (change : UpgradeChange) :
    (applyChange env st sc change).1.m_sourceCodes =
      st.m_sourceCodes.assign sc.1 (env.applyPatch change).source := by
  cases h : st.m_args.dryRun <;> simp [applyChange, writeInputFile, h]

theorem applyChange_files (env : Env) (st : State) (sc : String × String)
    (change : UpgradeChange) :
    (applyChange env st sc change).1.files =
      if st.m_args.dryRun then st.files
      else st.files.assign sc.1 (env.applyPatch change).source := by
  cases h : st.m_args.dryRun <;> simp [applyChange, writeInputFile, h]

theorem applyChange_change (env : Env) (st : State) (sc : String × String)
    (change : UpgradeChange) :
    (applyChange env st sc change).2 = env.applyPatch change := by
  cases h : st.m_args.dryRun <;> simp [applyChange, h]

/-! ## Concrete inputs -/

/-- A compiler stack on which analysis was performed and one error is reported. -/
def demoCompiler : CompilerStack :=
  { sources := [("a.sol", "contract C")], analysisPerformed := true, errors := ["error"] }

/-- An environment in which `apply()` replaces the located text by the patch when the
location spans the whole source, analysis of `a.sol` reports one change of the level
given, the file system holds the regular file `/a/b/c`, and canonicalisation of `/loop`
(a symbolic link to itself) throws a file system error. -/
def demoEnv (level : Level) : Env :=
  { applyPatch := fun c =>
      if c.m_locationStart = 0 ∧ c.m_locationEnd = c.m_source.length then
        { c with m_source := c.m_patch }
      else c
    upgrade060 := fun _ path source =>
      if path = "a.sol" ∧ source = "contract C" then
        [{ m_level := level, m_locationStart := 0, m_locationEnd := 10,
           m_source := source, m_patch := "abstract contract C" }]
      else []
    requestedImports := fun _ => []
    compileOutcome := fun sources _ =>
      (true, if sources.find "a.sol" = some "contract C" then ["error"] else [])
    weaklyCanonical := fun p =>
      if p = "/a/b/c" then Except.ok ["/", "a", "b", "c"]
      else if p = "/a/bc" then Except.ok ["/", "a", "bc"]
      else if p = "/loop" then Except.error Thrown.other
      else Except.error (Thrown.devException p)
    fileExists := fun cp => Except.ok (decide (cp = ["/", "a", "b", "c"]))
    isRegularFile := fun cp => Except.ok (decide (cp = ["/", "a", "b", "c"]))
    readFileAsString := fun _ => Except.ok "contract D"
    genericString := fun p => p
    pathComponents := fun p => if p = "/a/b" then ["/", "a", "b"] else [p]
    removeFilename := fun p => p.dropLast }

/-- A tool state holding the source `a.sol`, with the options given. -/
def demoState (dryRun applyUnsafe : Bool) (allowed : List FsPath) : State :=
  { m_args := { dryRun := dryRun, applyUnsafe := applyUnsafe, verbose := false,
                ignoreMissing := false, allowPaths := none }
    m_sourceCodes := [("a.sol", "contract C")]
    m_compiler := demoCompiler
    m_allowedDirectories := allowed
    files := [("a.sol", "contract C")]
    trace := [] }

/-! ## Shape of the event record of the upgrade loop -/

theorem fileReader_failure_frame (env : Env) (st : State) (path : String)
    (h : (fileReader env st path).1.success = false) : (fileReader env st path).2 = st := by
  unfold fileReader at h ⊢
  rcases hw : env.weaklyCanonical path with e | canonicalPath
  · rfl
  · rw [hw] at h
    simp only at h ⊢
    cases ha : isAllowed st.m_allowedDirectories canonicalPath
    · simp
    · rw [ha] at h
      simp only [Bool.not_true, Bool.false_eq_true, if_false] at h ⊢
      rcases hx : env.fileExists canonicalPath with e | b
      · rfl
      · cases b
        · rfl
        · rw [hx] at h
          simp only at h ⊢
          rcases hr : env.isRegularFile canonicalPath with e | b
          · rfl
          · cases b
            · rfl
            · rw [hr] at h
              simp only at h ⊢
              rcases hc : env.readFileAsString canonicalPath with e | contents
              · rfl
              · rw [hc] at h
                simp at h

end SolidityUpgrade

namespace CHCEncoder

/-! ## Data model of the CHC encoder

`CHC.h` declares the members below; the bodies of the member functions are in a file that
is not available, so every function of this part is modelled from the specification. -/

/-- Modelled from the spec: the solver sorts of symbolic variables (`smt::SortPointer`). -/
inductive SmtSort where
  | Int
  | Bool
  | Array (domain range : SmtSort)
  deriving DecidableEq, Repr

/-- Modelled from the spec: a variable declaration of the AST, with the solver sort that
the type-to-sort mapping gives to its type. -/
structure VariableDeclaration where
  name : String
  sort : SmtSort
  deriving DecidableEq, Repr

/-- Modelled from the spec: a function definition of the AST: identity, name, parameters
and return variables. -/
structure FunctionDefinition where
  id : Nat
  name : String
  parameters : List VariableDeclaration
  returnParameters : List VariableDeclaration
  deriving DecidableEq, Repr

/-- Modelled from the spec: a contract definition of the AST with its state variables. -/
structure ContractDefinition where
  id : Nat
  stateVariables : List VariableDeclaration
  deriving DecidableEq, Repr

/-- Modelled from the spec: an AST node for which a block is created: identity, the text
that `predicateName` yields for it, and the variables in scope at that point (parameters
and locals declared so far). -/
structure ASTNode where
  id : Nat
  predicateName : String
  scopeVariables : List VariableDeclaration
  deriving DecidableEq, Repr

/-- Modelled from the spec: a predicate, a name (text) and a sort (the ordered list of
the sorts of its arguments). -/
structure Predicate where
  name : String
  sort : List SmtSort
  deriving DecidableEq, Repr

/-- Number of arguments of a predicate. -/
def Predicate.arity (p : Predicate) : Nat := p.sort.length

/-- Modelled from the spec: the source terms of the statements considered, integer
literals and variables. -/
inductive Term where
  | lit (value : Int)
  | var (name : String)
  deriving DecidableEq, Repr

/-- Modelled from the spec: symbolic terms (`smt::Expression`), integer literals and a
variable at an SSA index. -/
inductive SymTerm where
  | lit (value : Int)
  | sym (name : String) (index : Nat)
  deriving DecidableEq, Repr

/-- Modelled from the spec: a constraint `lhs = rhs`, or its negation when `positive` is
false. -/
structure Constraint where
  positive : Bool
  lhs : SymTerm
  rhs : SymTerm
  deriving DecidableEq, Repr

/-- A solver query: the conjunction of its constraints. -/
abbrev Query := List Constraint

/-- An assignment of values to symbolic variables. -/
abbrev Valuation := String → Nat → Int

/-- Value of a symbolic term under a valuation. -/
def SymTerm.eval (ν : Valuation) : SymTerm → Int
  | SymTerm.lit value => value
  | SymTerm.sym name index => ν name index

/-- Truth of a constraint under a valuation. -/
def Constraint.holds (ν : Valuation) (c : Constraint) : Bool :=
  if c.positive then decide (c.lhs.eval ν = c.rhs.eval ν)
  else decide (c.lhs.eval ν ≠ c.rhs.eval ν)

/-- A query is satisfiable when some valuation makes all its constraints true. -/
def Satisfiable (q : Query) : Prop := ∃ ν : Valuation, ∀ c ∈ q, c.holds ν = true

/-- Modelled from the spec: the verdicts of the solver interface (the solver itself is
outside the encoder): unsatisfiable, satisfiable, unknown, timeout, or no solver
available in-process. -/
inductive Verdict where
  | unsatisfiable
  | satisfiable
  | unknown
  | timeout
  | noSolver
  deriving DecidableEq, Repr

/-- Modelled from the spec: the solver behind the solver interface, as the verdict it
gives to each query. -/
abbrev Solver := Query → Verdict

/-- Modelled from the spec: the contract of the solver interface, under which
unsatisfiable is reported only for queries without a model. -/
def SoundSolver (solver : Solver) : Prop :=
  ∀ q, solver q = Verdict.unsatisfiable → ¬ Satisfiable q

/-- Modelled from the spec: the state of the encoder.  The members `m_...` are declared
in `CHC.h`; the symbolic position (SSA indices and the constraints of the current path),
the predicates created, the queries issued with their verdicts and the unhandled queries
stand for the base encoder and the solver interface, which are not available. -/
structure CHC where
  m_stateSorts : List SmtSort
  m_stateVariables : List VariableDeclaration
  m_verificationTargets : List Nat
  m_safeAssertions : List Nat
  m_blockCounter : Nat
  m_unknownFunctionCallSeen : Bool
  indices : String → Nat
  pathConstraints : List Constraint
  predicates : List Predicate
  issued : List (Nat × Query × Verdict)
  unhandled : List Query

/-- The encoder as constructed: `m_blockCounter = 0`, nothing recorded. -/
def CHC.initial : CHC :=
  { m_stateSorts := []
    m_stateVariables := []
    m_verificationTargets := []
    m_safeAssertions := []
    m_blockCounter := 0
    m_unknownFunctionCallSeen := false
    indices := fun _ => 0
    pathConstraints := []
    predicates := []
    issued := []
    unhandled := [] }

/-- Accessor `safeAssertions()` of `CHC.h`. -/
def CHC.safeAssertions (st : CHC) : List Nat := st.m_safeAssertions

/-! ## Predicate factory and sort builder -/

/-- Modelled from the spec: `CHC::uniquePrefix` (body not available).  "Returns a prefix
to be used in a new unique block name and increases the block counter": the prefix is
the decimal numeral of the counter.  The member is declared `unsigned`; the
specification describes it as strictly increasing, and it is counted in the natural
numbers. -/
def uniquePrefix (st : CHC) : String × CHC :=
  (toString st.m_blockCounter, { st with m_blockCounter := st.m_blockCounter + 1 })

/-- Modelled from the spec: `CHC::summarySort` (body not available).  "Sort for function
calls. This is: (stateVarsSorts inputSorts outputSorts stateVarSorts)". -/
def summarySort (st : CHC) (_function : FunctionDefinition) : List SmtSort :=
  st.m_stateSorts ++ _function.parameters.map VariableDeclaration.sort
    ++ _function.returnParameters.map VariableDeclaration.sort ++ st.m_stateSorts

/-- Modelled from the spec: `CHC::sort(ASTNode const*)` (body not available): the
state-variable sorts followed by the sorts of all variables in scope at the node. -/
def blockSort (st : CHC) (_block : ASTNode) : List SmtSort :=
  st.m_stateSorts ++ _block.scopeVariables.map VariableDeclaration.sort

/-- Modelled from the spec: `CHC::createSymbolicBlock` (body not available): a new
predicate of the given sort and name, added to the predicates of the encoder. -/
def createSymbolicBlock (st : CHC) (sort : List SmtSort) (name : String) :
    Predicate × CHC :=
  ({ name := name, sort := sort },
   { st with predicates := st.predicates ++ [{ name := name, sort := sort }] })

/-- Modelled from the spec: `CHC::createBlock` (body not available): a predicate whose
name is `uniquePrefix()` concatenated with the descriptive tag of a block (the word for
the kind of predicate, then the given prefix and the text of the node), with the sort of
the node. -/
def createBlock (st : CHC) (_node : ASTNode) (tagPrefix : String) : Predicate × CHC :=
  let r := uniquePrefix st
  createSymbolicBlock r.2 (blockSort r.2 _node)
    (r.1 ++ ("block_" ++ (tagPrefix ++ _node.predicateName)))

/-- Modelled from the spec: `CHC::createSummaryBlock` (body not available): a predicate
whose name is `uniquePrefix()` concatenated with the descriptive tag of a summary (the
word for the kind of predicate, then the name of the function), with the summary sort. -/
def createSummaryBlock (st : CHC) (_node : FunctionDefinition) : Predicate × CHC :=
  let r := uniquePrefix st
  createSymbolicBlock r.2 (summarySort r.2 _node) (r.1 ++ ("summary_" ++ _node.name))

/-- Modelled from the spec: `CHC::createErrorBlock` (body not available): a predicate
whose name is `uniquePrefix()` concatenated with the descriptive tag of error blocks, and
whose one argument is the index that tells assertions apart. -/
def createErrorBlock (st : CHC) : Predicate × CHC :=
  let r := uniquePrefix st
  createSymbolicBlock r.2 [SmtSort.Int] (r.1 ++ "error")

/-! ## Encoder callbacks -/

/-- Modelled from the spec: `CHC::reset` (body not available): resets the current
symbolic position (indices, current block, call-seen flag) and nothing else. -/
def reset (st : CHC) : CHC :=
  { st with
    indices := fun _ => 0
    pathConstraints := []
    m_unknownFunctionCallSeen := false }

/-- Modelled from the spec: contract entry, `CHC::visit(ContractDefinition)` (body not
available): the state-variable sort and declaration lists are fixed for the contract. -/
def visitContract (st : CHC) (_node : ContractDefinition) : CHC :=
  { reset st with
    m_stateVariables := _node.stateVariables
    m_stateSorts := _node.stateVariables.map VariableDeclaration.sort }

/-- Modelled from the spec: function entry, `CHC::visit(FunctionDefinition)` (body not
available): encoding starts at the entry block of the function, on which no constraint
lies. -/
def visitFunction (st : CHC) (_node : FunctionDefinition) : CHC :=
  { st with pathConstraints := [], m_unknownFunctionCallSeen := false }

/-- Modelled from the spec: the symbolic value of a source term at the current SSA
indices. -/
def currentValue (st : CHC) : Term → SymTerm
  | Term.lit value => SymTerm.lit value
  | Term.var name => SymTerm.sym name (st.indices name)

/-- Modelled from the spec: an assignment `name = value`, handled by the symbolic
bookkeeping the encoder builds on: the variable gets the next SSA index and the
constraint that its new value is the value of the right-hand side. -/
def visitAssignment (st : CHC) (name : String) (value : Term) : CHC :=
  let rhs := currentValue st value
  let next := st.indices name + 1
  { st with
    indices := fun n => if n = name then next else st.indices n
    pathConstraints := st.pathConstraints ++
      [{ positive := true, lhs := SymTerm.sym name next, rhs := rhs }] }

/-- Modelled from the spec: `CHC::eraseKnowledge` (body not available): "introduce fresh,
unconstrained values for all state variables": every state variable gets the next SSA
index and no constraint. -/
def eraseKnowledge (st : CHC) : CHC :=
  { st with
    indices := fun n =>
      if st.m_stateVariables.any (fun v => v.name == n) then st.indices n + 1
      else st.indices n }

/-- Modelled from the spec: `CHC::unknownFunctionCall` (body not available): the call is
treated as able to change every state variable, so knowledge is erased. -/
def unknownFunctionCall (st : CHC) : CHC :=
  { eraseKnowledge st with m_unknownFunctionCallSeen := true }

/-- Modelled from the spec: `CHC::query` (body not available): issues the query and
"returns true if query is unsatisfiable (safe)"; a query that no solver could answer is
kept among the unhandled queries. -/
def query (solver : Solver) (st : CHC) (target : Nat) (_query : Query) : Bool × CHC :=
  let verdict := solver _query
  let st1 : CHC := { st with issued := st.issued ++ [(target, _query, verdict)] }
  match verdict with
  | Verdict.unsatisfiable => (true, st1)
  | Verdict.satisfiable => (false, st1)
  | Verdict.unknown => (false, st1)
  | Verdict.timeout => (false, st1)
  | Verdict.noSolver => (false, { st1 with unhandled := st1.unhandled ++ [_query] })

/-- Modelled from the spec: the query of an assertion `lhs == rhs`, "is Error reachable
from the current block given the assertion's negated condition?": the constraints of
the current path together with the negated condition. -/
def assertionQuery (st : CHC) (lhs rhs : Term) : Query :=
  st.pathConstraints ++
    [{ positive := false, lhs := currentValue st lhs, rhs := currentValue st rhs }]

/-- Modelled from the spec: `CHC::visitAssert` (body not available) for an assertion
`assert(lhs == rhs)`: "The target assertion is recorded before the query is issued. If
the solver reports unsatisfiable, the target is added to the proved-safe set; any other
verdict leaves it unproven." -/
def visitAssert (solver : Solver) (st : CHC) (target : Nat) (lhs rhs : Term) : CHC :=
  let st1 : CHC := { st with m_verificationTargets := st.m_verificationTargets ++ [target] }
  let r := query solver st1 target (assertionQuery st1 lhs rhs)
  if r.1 then
    { r.2 with m_safeAssertions :=
        if target ∈ r.2.m_safeAssertions then r.2.m_safeAssertions
        else r.2.m_safeAssertions ++ [target] }
  else r.2

/-- Modelled from the spec: the callbacks that the AST traversal makes on the encoder. -/
inductive Visit where
  | contract (_node : ContractDefinition)
  | function (_node : FunctionDefinition)
  | block (_node : ASTNode) (tagPrefix : String)
  | summary (_node : FunctionDefinition)
  | errorBlock
  | assignment (name : String) (value : Term)
  | unknownCall
  | assertion (target : Nat) (lhs rhs : Term)
  | reset
  deriving DecidableEq, Repr

/-- Modelled from the spec: the dispatch of one callback of the traversal. -/
def visit (solver : Solver) (st : CHC) : Visit → CHC
  | Visit.contract _node => visitContract st _node
  | Visit.function _node => visitFunction st _node
  | Visit.block _node tagPrefix => (createBlock st _node tagPrefix).2
  | Visit.summary _node => (createSummaryBlock st _node).2
  | Visit.errorBlock => (createErrorBlock st).2
  | Visit.assignment name value => visitAssignment st name value
  | Visit.unknownCall => unknownFunctionCall st
  | Visit.assertion target lhs rhs => visitAssert solver st target lhs rhs
  | Visit.reset => reset st

/-- Modelled from the spec: `CHC::analyze` (body not available), as the callbacks of one
traversal made in order. -/
def analyze (solver : Solver) (st : CHC) : List Visit → CHC
  | [] => st
  | v :: rest => analyze solver (visit solver st v) rest

/-! ## Lemmas on the encoder -/

theorem query_fields (solver : Solver) (st : CHC) (target : Nat) (q : Query) :
    (query solver st target q).2.m_blockCounter = st.m_blockCounter ∧
    (query solver st target q).2.predicates = st.predicates ∧
    (query solver st target q).2.m_stateSorts = st.m_stateSorts ∧
    (query solver st target q).2.m_stateVariables = st.m_stateVariables ∧
    (query solver st target q).2.m_safeAssertions = st.m_safeAssertions ∧
    (query solver st target q).2.issued = st.issued ++ [(target, q, solver q)] ∧
    ((query solver st target q).1 = true ↔ solver q = Verdict.unsatisfiable) := by
  unfold query
  cases solver q <;> simp

theorem visitAssert_fields (solver : Solver) (st : CHC) (target : Nat) (lhs rhs : Term) :
    (visitAssert solver st target lhs rhs).m_blockCounter = st.m_blockCounter ∧
    (visitAssert solver st target lhs rhs).predicates = st.predicates ∧
    (visitAssert solver st target lhs rhs).m_stateSorts = st.m_stateSorts ∧
    (visitAssert solver st target lhs rhs).m_stateVariables = st.m_stateVariables ∧
    (visitAssert solver st target lhs rhs).issued
      = st.issued ++ [(target, assertionQuery st lhs rhs, solver (assertionQuery st lhs rhs))] := by
  have hq := query_fields solver
    { st with m_verificationTargets := st.m_verificationTargets ++ [target] } target
    (assertionQuery st lhs rhs)
  obtain ⟨h1, h2, h3, h4, _, h6, _⟩ := hq
  unfold visitAssert
  simp only [show assertionQuery
    { st with m_verificationTargets := st.m_verificationTargets ++ [target] } lhs rhs
      = assertionQuery st lhs rhs from rfl]
  split
  · exact ⟨h1, h2, h3, h4, h6⟩
  · exact ⟨h1, h2, h3, h4, h6⟩

theorem visitAssert_safeAssertions (solver : Solver) (st : CHC) (target : Nat)
    (lhs rhs : Term) :
    (visitAssert solver st target lhs rhs).m_safeAssertions =
      if solver (assertionQuery st lhs rhs) = Verdict.unsatisfiable then
        (if target ∈ st.m_safeAssertions then st.m_safeAssertions
         else st.m_safeAssertions ++ [target])
      else st.m_safeAssertions := by
  have hq := query_fields solver
    { st with m_verificationTargets := st.m_verificationTargets ++ [target] } target
    (assertionQuery st lhs rhs)
  obtain ⟨_, _, _, _, h5, _, h7⟩ := hq
  unfold visitAssert
  simp only [show assertionQuery
    { st with m_verificationTargets := st.m_verificationTargets ++ [target] } lhs rhs
      = assertionQuery st lhs rhs from rfl]
  by_cases hv : solver (assertionQuery st lhs rhs) = Verdict.unsatisfiable
  · rw [if_pos (h7.2 hv), if_pos hv]
    simp only [h5]
  · have hf : ¬ (query solver
        { st with m_verificationTargets := st.m_verificationTargets ++ [target] } target
        (assertionQuery st lhs rhs)).1 = true := fun h => hv (h7.1 h)
    rw [if_neg hf, if_neg hv]
    exact h5

/-- The state-variable sorts are the sorts of the state variables. -/
def SortsAgree (st : CHC) : Prop :=
  st.m_stateSorts = st.m_stateVariables.map VariableDeclaration.sort

theorem visit_sortsAgree (solver : Solver) (st : CHC) (v : Visit) (h : SortsAgree st) :
    SortsAgree (visit solver st v) := by
  cases v with
  | assertion target lhs rhs =>
    have hf := visitAssert_fields solver st target lhs rhs
    unfold SortsAgree
    rw [show visit solver st (Visit.assertion target lhs rhs)
      = visitAssert solver st target lhs rhs from rfl, hf.2.2.1, hf.2.2.2.1]
    exact h
  | contract n => rfl
  | function n => exact h
  | block n p => exact h
  | summary n => exact h
  | errorBlock => exact h
  | assignment name value => exact h
  | unknownCall => exact h
  | reset => exact h

theorem analyze_sortsAgree (solver : Solver) (visits : List Visit) (st : CHC)
    (h : SortsAgree st) : SortsAgree (analyze solver st visits) := by
  induction visits generalizing st with
  | nil => exact h
  | cons v rest ih => exact ih (visit solver st v) (visit_sortsAgree solver st v h)

/-- Every issued query carries the verdict of the solver, and the safe assertions are the
targets of the queries answered unsatisfiable. -/
def SafeIffUnsat (solver : Solver) (st : CHC) : Prop :=
  (∀ e ∈ st.issued, e.2.2 = solver e.2.1) ∧
  (∀ target, target ∈ st.m_safeAssertions ↔
    ∃ q, (target, q, Verdict.unsatisfiable) ∈ st.issued)

theorem visit_safeIffUnsat (solver : Solver) (st : CHC) (v : Visit)
    (h : SafeIffUnsat solver st) : SafeIffUnsat solver (visit solver st v) := by
  cases v with
  | assertion target lhs rhs =>
    have hf := visitAssert_fields solver st target lhs rhs
    have hs := visitAssert_safeAssertions solver st target lhs rhs
    rw [show visit solver st (Visit.assertion target lhs rhs)
      = visitAssert solver st target lhs rhs from rfl]
    refine ⟨?_, ?_⟩
    · intro e he
      rw [hf.2.2.2.2] at he
      rcases List.mem_append.1 he with h1 | h1
      · exact h.1 e h1
      · rw [List.mem_singleton.1 h1]
    · intro t
      rw [hs, hf.2.2.2.2]
      by_cases hv : solver (assertionQuery st lhs rhs) = Verdict.unsatisfiable
      · rw [if_pos hv, hv]
        by_cases hm : target ∈ st.m_safeAssertions
        · rw [if_pos hm, h.2 t]
          constructor
          · rintro ⟨q, hq⟩
            exact ⟨q, List.mem_append_left _ hq⟩
          · rintro ⟨q, hq⟩
            rcases List.mem_append.1 hq with h1 | h1
            · exact ⟨q, h1⟩
            · have := List.mem_singleton.1 h1
              simp only [Prod.mk.injEq] at this
              rw [this.1]
              exact (h.2 target).1 hm
        · rw [if_neg hm, List.mem_append, h.2 t]
          constructor
          · rintro (⟨q, hq⟩ | h1)
            · exact ⟨q, List.mem_append_left _ hq⟩
            · rw [List.mem_singleton.1 h1]
              exact ⟨_, List.mem_append_right _ (List.mem_singleton.2 rfl)⟩
          · rintro ⟨q, hq⟩
            rcases List.mem_append.1 hq with h1 | h1
            · exact Or.inl ⟨q, h1⟩
            · have := List.mem_singleton.1 h1
              simp only [Prod.mk.injEq] at this
              exact Or.inr (List.mem_singleton.2 this.1)
      · rw [if_neg hv, h.2 t]
        constructor
        · rintro ⟨q, hq⟩
          exact ⟨q, List.mem_append_left _ hq⟩
        · rintro ⟨q, hq⟩
          rcases List.mem_append.1 hq with h1 | h1
          · exact ⟨q, h1⟩
          · have := List.mem_singleton.1 h1
            simp only [Prod.mk.injEq] at this
            exact absurd this.2.2.symm hv
  | contract n => exact h
  | function n => exact h
  | block n p => exact h
  | summary n => exact h
  | errorBlock => exact h
  | assignment name value => exact h
  | unknownCall => exact h
  | reset => exact h

theorem analyze_safeIffUnsat (solver : Solver) (visits : List Visit) (st : CHC)
    (h : SafeIffUnsat solver st) : SafeIffUnsat solver (analyze solver st visits) := by
  induction visits generalizing st with
  | nil => exact h
  | cons v rest ih => exact ih (visit solver st v) (visit_safeIffUnsat solver st v h)

theorem initial_safeIffUnsat (solver : Solver) : SafeIffUnsat solver CHC.initial := by
  constructor
  · intro e he
    simp [CHC.initial] at he
  · intro t
    simp [CHC.initial]

/-- Without a call between the assignment and the assertion, the query of
`x = 1; assert(x == 1);` has no model. -/
theorem assertionQuery_without_call_unsat (solver : Solver) (st : CHC)
    (f : FunctionDefinition) (x : String) :
    ¬ Satisfiable (assertionQuery
      (analyze solver st [Visit.function f, Visit.assignment x (Term.lit 1)])
      (Term.var x) (Term.lit 1)) := by
  rintro ⟨ν, h⟩
  have hq : assertionQuery
      (analyze solver st [Visit.function f, Visit.assignment x (Term.lit 1)])
      (Term.var x) (Term.lit 1)
      = [{ positive := true, lhs := SymTerm.sym x (st.indices x + 1), rhs := SymTerm.lit 1 },
         { positive := false, lhs := SymTerm.sym x (st.indices x + 1),
           rhs := SymTerm.lit 1 }] := by
    simp [analyze, visit, visitFunction, visitAssignment, assertionQuery, currentValue]
  rw [hq] at h
  have h1 := h _ (List.mem_cons_self _ _)
  have h2 := h _ (List.mem_cons_of_mem _ (List.mem_cons_self _ _))
  simp only [Constraint.holds, SymTerm.eval, if_true, decide_eq_true_eq] at h1
  simp [Constraint.holds, SymTerm.eval, h1] at h2

/-- A call does not erase knowledge of a variable that is not a state variable: the query
of `x = 1; externalCall(); assert(x == 1);` then has no model. -/
theorem assertionQuery_local_unsat (solver : Solver) (st : CHC)
    (f : FunctionDefinition) (x : String)
    (hlocal : ∀ v ∈ st.m_stateVariables, v.name ≠ x) :
    ¬ Satisfiable (assertionQuery
      (analyze solver st
        [Visit.function f, Visit.assignment x (Term.lit 1), Visit.unknownCall])
      (Term.var x) (Term.lit 1)) := by
  rintro ⟨ν, h⟩
  have hq : assertionQuery
      (analyze solver st
        [Visit.function f, Visit.assignment x (Term.lit 1), Visit.unknownCall])
      (Term.var x) (Term.lit 1)
      = [{ positive := true, lhs := SymTerm.sym x (st.indices x + 1), rhs := SymTerm.lit 1 },
         { positive := false, lhs := SymTerm.sym x (st.indices x + 1),
           rhs := SymTerm.lit 1 }] := by
    have hno : ¬ ∃ v ∈ st.m_stateVariables, v.name = x := by
      rintro ⟨v, hv, hx⟩
      exact hlocal v hv hx
    simp [analyze, visit, visitFunction, visitAssignment, unknownFunctionCall, eraseKnowledge,
      assertionQuery, currentValue, hno]
  rw [hq] at h
  have h1 := h _ (List.mem_cons_self _ _)
  have h2 := h _ (List.mem_cons_of_mem _ (List.mem_cons_self _ _))
  simp only [Constraint.holds, SymTerm.eval, if_true, decide_eq_true_eq] at h1
  simp [Constraint.holds, SymTerm.eval, h1] at h2

end CHCEncoder

namespace SolidityUpgrade

/-! ## Properties of the upgrade assistant -/

/-- C2: when the change list after analysis starts with a change of level `Unsafe`,
`analyzeAndUpgrade` calls `applyChange` and returns `true` exactly when `--unsafe` was
given; without `--unsafe` it returns `false` and the stored sources, the files and the
change list are as before. -/
theorem analyzeAndUpgrade_unsafe_gate (env : Env) (st : State) (sc : String × String)
    (changes : List UpgradeChange) (change : UpgradeChange) (rest : List UpgradeChange)
    (hfront : analysedChanges env st sc changes = change :: rest)
    (hlevel : change.level = Level.Unsafe) :
    (st.m_args.applyUnsafe = true →
      analyzeAndUpgrade env st sc changes =
        (true,
         (applyChange env { st with trace := st.trace ++ [Event.analyze sc.1] } sc change).1,
         (applyChange env { st with trace := st.trace ++ [Event.analyze sc.1] } sc change).2
           :: rest)) ∧
    (st.m_args.applyUnsafe = false →
      (analyzeAndUpgrade env st sc changes).1 = false ∧
      (analyzeAndUpgrade env st sc changes).2.1.m_sourceCodes = st.m_sourceCodes ∧
      (analyzeAndUpgrade env st sc changes).2.1.files = st.files ∧
      (analyzeAndUpgrade env st sc changes).2.2 = change :: rest) ∧
    ((∃ path source, Event.applyChange path source ∈
        (analyzeAndUpgrade env st sc changes).2.1.trace.drop st.trace.length) ↔
      st.m_args.applyUnsafe = true) := by
  cases hu : st.m_args.applyUnsafe
  · simp [analyzeAndUpgrade, hfront, hlevel, hu]
  · simp [analyzeAndUpgrade, hfront, hlevel, hu, applyChange_trace]

/-- Instance of C2 at `a.sol` with one reported change of level `Unsafe` and no
`--unsafe`. -/
theorem analyzeAndUpgrade_unsafe_gate_witness :
    analysedChanges (demoEnv Level.Unsafe) (demoState false false []) ("a.sol", "contract C") []
        = [{ m_level := Level.Unsafe, m_locationStart := 0, m_locationEnd := 10,
             m_source := "contract C", m_patch := "abstract contract C" }] ∧
      (analyzeAndUpgrade (demoEnv Level.Unsafe) (demoState false false [])
        ("a.sol", "contract C") []).1 = false :=
  ⟨by simp [analysedChanges, demoEnv, demoState, demoCompiler],
   ((analyzeAndUpgrade_unsafe_gate (demoEnv Level.Unsafe) (demoState false false [])
      ("a.sol", "contract C") []
      { m_level := Level.Unsafe, m_locationStart := 0, m_locationEnd := 10,
        m_source := "contract C", m_patch := "abstract contract C" } []
      (by simp [analysedChanges, demoEnv, demoState, demoCompiler]) rfl).2.1 rfl).1⟩

/-- C3: `applyChange` applies the change, stores the resulting source under the path of
the source and leaves every other entry of the source map as it was; it calls
`writeInputFile` with that source exactly when `--dry-run` was not given, and with
`--dry-run` no file is written. -/
theorem applyChange_dryRun_frame (env : Env) (st : State) (sc : String × String)
    (change : UpgradeChange) :
    (applyChange env st sc change).2 = env.applyPatch change ∧
    (applyChange env st sc change).1.m_sourceCodes.find sc.1
      = some (env.applyPatch change).source ∧
    (∀ other, other ≠ sc.1 →
      (applyChange env st sc change).1.m_sourceCodes.find other
        = st.m_sourceCodes.find other) ∧
    (∀ e : String × String, e.1 ≠ sc.1 →
      (e ∈ (applyChange env st sc change).1.m_sourceCodes ↔ e ∈ st.m_sourceCodes)) ∧
    ((∃ path source, Event.writeInputFile path source ∈
        (applyChange env st sc change).1.trace.drop st.trace.length) ↔
      st.m_args.dryRun = false) ∧
    (∀ path source, Event.writeInputFile path source ∈
        (applyChange env st sc change).1.trace.drop st.trace.length →
      path = sc.1 ∧ source = (env.applyPatch change).source) ∧
    (st.m_args.dryRun = true → (applyChange env st sc change).1.files = st.files) ∧
    (st.m_args.dryRun = false →
      (applyChange env st sc change).1.files
        = st.files.assign sc.1 (env.applyPatch change).source) := by
  refine ⟨applyChange_change env st sc change, ?_, ?_, ?_, ?_, ?_, ?_, ?_⟩
  · rw [applyChange_sourceCodes]
    exact SourceMap.find_assign_same _ _ _
  · intro other h
    rw [applyChange_sourceCodes]
    exact SourceMap.find_assign_other _ _ _ _ h
  · intro e h
    rw [applyChange_sourceCodes]
    exact SourceMap.mem_assign_other _ _ _ _ h
  · rw [applyChange_trace]
    cases h : st.m_args.dryRun <;> simp
  · intro path source
    rw [applyChange_trace]
    cases h : st.m_args.dryRun <;> simp
  · intro h
    rw [applyChange_files, h]
    simp
  · intro h
    rw [applyChange_files, h]
    simp

/-- C4, as stated, fails: with `--dry-run` and a first change of level `Safe` reported for
`a.sol`, the text held for `a.sol` after `analyzeAndUpgrade` is the upgraded text, not
the text held before. -/
theorem analyzeAndUpgrade_dryRun_safe_counterexample :
    (demoState true false []).m_args.dryRun = true ∧
    analysedChanges (demoEnv Level.Safe) (demoState true false []) ("a.sol", "contract C") []
      = [{ m_level := Level.Safe, m_locationStart := 0, m_locationEnd := 10,
           m_source := "contract C", m_patch := "abstract contract C" }] ∧
    (demoState true false []).m_sourceCodes.find "a.sol" = some "contract C" ∧
    (analyzeAndUpgrade (demoEnv Level.Safe) (demoState true false [])
      ("a.sol", "contract C") []).2.1.m_sourceCodes.find "a.sol"
        = some "abstract contract C" ∧
    (analyzeAndUpgrade (demoEnv Level.Safe) (demoState true false [])
      ("a.sol", "contract C") []).2.1.m_sourceCodes.find "a.sol"
        ≠ (demoState true false []).m_sourceCodes.find "a.sol" := by
  have h : (10 : Nat) = "contract C".length := by decide
  simp [analyzeAndUpgrade, analysedChanges, applyChange, demoEnv, demoState, demoCompiler,
    UpgradeChange.level, UpgradeChange.source, SourceMap.find, SourceMap.assign, h]

/-- C4, amended: with `--dry-run`, a first change of level `Safe` is still applied in
memory: `analyzeAndUpgrade` returns `true`, the text held for the file is the resulting
source of the change and every other entry is as before, while no file is written. -/
theorem analyzeAndUpgrade_dryRun_safe_in_memory (env : Env) (st : State)
    (sc : String × String) (changes : List UpgradeChange) (change : UpgradeChange)
    (rest : List UpgradeChange)
    (hfront : analysedChanges env st sc changes = change :: rest)
    (hlevel : change.level = Level.Safe)
    (hdry : st.m_args.dryRun = true) :
    (analyzeAndUpgrade env st sc changes).1 = true ∧
    (analyzeAndUpgrade env st sc changes).2.1.m_sourceCodes.find sc.1
      = some (env.applyPatch change).source ∧
    (∀ other, other ≠ sc.1 →
      (analyzeAndUpgrade env st sc changes).2.1.m_sourceCodes.find other
        = st.m_sourceCodes.find other) ∧
    (analyzeAndUpgrade env st sc changes).2.1.files = st.files ∧
    (∀ path source, Event.writeInputFile path source ∉
      (analyzeAndUpgrade env st sc changes).2.1.trace.drop st.trace.length) := by
  refine ⟨?_, ?_, ?_, ?_, ?_⟩
  · simp [analyzeAndUpgrade, hfront, hlevel]
  · simp [analyzeAndUpgrade, hfront, hlevel, applyChange_sourceCodes,
      SourceMap.find_assign_same]
  · intro other h
    simp [analyzeAndUpgrade, hfront, hlevel, applyChange_sourceCodes,
      SourceMap.find_assign_other _ _ _ _ h]
  · simp [analyzeAndUpgrade, hfront, hlevel, applyChange_files, hdry]
  · intro path source
    simp [analyzeAndUpgrade, hfront, hlevel, applyChange_trace, hdry]

/-- Instance of the amended C4 at `a.sol` with one reported change of level `Safe` under
`--dry-run`. -/
theorem analyzeAndUpgrade_dryRun_safe_in_memory_witness :
    analysedChanges (demoEnv Level.Safe) (demoState true false []) ("a.sol", "contract C") []
        = [{ m_level := Level.Safe, m_locationStart := 0, m_locationEnd := 10,
             m_source := "contract C", m_patch := "abstract contract C" }] ∧
      (analyzeAndUpgrade (demoEnv Level.Safe) (demoState true false [])
        ("a.sol", "contract C") []).2.1.files = [("a.sol", "contract C")] :=
  ⟨by simp [analysedChanges, demoEnv, demoState, demoCompiler],
   (analyzeAndUpgrade_dryRun_safe_in_memory (demoEnv Level.Safe) (demoState true false [])
      ("a.sol", "contract C") []
      { m_level := Level.Safe, m_locationStart := 0, m_locationEnd := 10,
        m_source := "contract C", m_patch := "abstract contract C" } []
      (by simp [analysedChanges, demoEnv, demoState, demoCompiler]) rfl rfl).2.2.2.1⟩

/-- C5, as stated, fails: for the path `/loop`, whose canonicalisation throws, and with no
`--allow-paths`, the read callback returns the failure of its last `catch` clause, not
"File outside of allowed directories.". -/
theorem fileReader_throwing_path_counterexample :
    (demoState false false []).m_args.allowPaths = none ∧
    (parseAllowedDirectories (demoEnv Level.Safe) (demoState false false [])
      ).m_allowedDirectories = [] ∧
    (demoEnv Level.Safe).weaklyCanonical "/loop" = Except.error Thrown.other ∧
    fileReader (demoEnv Level.Safe)
        (parseAllowedDirectories (demoEnv Level.Safe) (demoState false false [])) "/loop"
      = ({ success := false,
           responseOrErrorMessage := "Unknown exception in read callback." },
         parseAllowedDirectories (demoEnv Level.Safe) (demoState false false [])) ∧
    (fileReader (demoEnv Level.Safe)
        (parseAllowedDirectories (demoEnv Level.Safe) (demoState false false [])) "/loop").1
      ≠ outsideAllowed := by
  refine ⟨rfl, rfl, by simp [demoEnv], ?_, ?_⟩
  · simp [fileReader, demoEnv, caught]
  · simp [fileReader, demoEnv, caught, outsideAllowed]

/-- C5, amended: when canonicalisation of the requested path succeeds, the read callback
lets the path through exactly when the component sequence of some allowed directory is
a prefix of the component sequence of the canonical path (`/a/b` lets `/a/b/c` through
but not `/a/bc`); for every other such path, and for every such path when no
`--allow-paths` was given, it returns the failure "File outside of allowed directories."
and stores no source.  When canonicalisation throws, the callback returns the failure
built by its `catch` clauses instead, which is a different result.  Whenever the result
is a failure the state, stored sources included, is as before. -/
theorem fileReader_allowed_directories (env : Env) (st : State) (path : String) :
    (∀ canonicalPath : FsPath, env.weaklyCanonical path = Except.ok canonicalPath →
      (isAllowed st.m_allowedDirectories canonicalPath = true ↔
        ∃ d ∈ st.m_allowedDirectories, d <+: canonicalPath) ∧
      ((fileReader env st path).1 ≠ outsideAllowed ↔
        ∃ d ∈ st.m_allowedDirectories, d <+: canonicalPath) ∧
      ((¬ ∃ d ∈ st.m_allowedDirectories, d <+: canonicalPath) →
        fileReader env st path = (outsideAllowed, st)) ∧
      (st.m_allowedDirectories = [] → fileReader env st path = (outsideAllowed, st)) ∧
      (st.m_allowedDirectories = [] → st.m_args.allowPaths = none →
        fileReader env (parseAllowedDirectories env st) path
          = (outsideAllowed, parseAllowedDirectories env st))) ∧
    (∀ e : Thrown, env.weaklyCanonical path = Except.error e →
      fileReader env st path = (caught e, st) ∧
      (fileReader env st path).1 ≠ outsideAllowed) ∧
    ((fileReader env st path).1.success = false → (fileReader env st path).2 = st) ∧
    isAllowed [["/", "a", "b"]] ["/", "a", "b", "c"] = true ∧
    isAllowed [["/", "a", "b"]] ["/", "a", "bc"] = false := by
  refine ⟨?_, ?_, fileReader_failure_frame env st path, by decide, by decide⟩
  · intro canonicalPath hcanonical
    have hiff := isAllowed_iff_exists_isPrefix st.m_allowedDirectories canonicalPath
    have hout : isAllowed st.m_allowedDirectories canonicalPath = false →
        fileReader env st path = (outsideAllowed, st) := by
      intro h
      simp [fileReader, hcanonical, h]
    have hin : isAllowed st.m_allowedDirectories canonicalPath = true →
        (fileReader env st path).1 ≠ outsideAllowed := by
      intro h
      simp only [fileReader, hcanonical, h, Bool.not_true]
      rcases env.fileExists canonicalPath with e | b
      · exact caught_ne_outsideAllowed e
      · cases b
        · simp [outsideAllowed]
        · rcases env.isRegularFile canonicalPath with e | b
          · exact caught_ne_outsideAllowed e
          · cases b
            · simp [outsideAllowed]
            · rcases env.readFileAsString canonicalPath with e | contents
              · exact caught_ne_outsideAllowed e
              · simp [outsideAllowed]
    refine ⟨hiff, ?_, ?_, ?_, ?_⟩
    · rw [← hiff]
      constructor
      · intro h
        by_contra hn
        exact h (by rw [hout (by simpa using hn)])
      · exact hin
    · intro h
      exact hout (by
        cases hb : isAllowed st.m_allowedDirectories canonicalPath
        · rfl
        · exact absurd (hiff.1 hb) h)
    · intro h
      exact hout (by rw [h]; rfl)
    · intro h hnone
      have hparse : parseAllowedDirectories env st = st := by
        simp [parseAllowedDirectories, hnone]
      rw [hparse]
      exact hout (by rw [h]; rfl)
  · intro e he
    have hres : fileReader env st path = (caught e, st) := by
      simp [fileReader, he]
    exact ⟨hres, by rw [hres]; exact caught_ne_outsideAllowed e⟩

/-- Instance of the amended C5: with `/a/b` allowed, the request for `/a/bc` is refused
and nothing is stored, and the request for `/a/b/c` is let through. -/
theorem fileReader_allowed_directories_witness :
    (demoEnv Level.Safe).weaklyCanonical "/a/bc" = Except.ok ["/", "a", "bc"] ∧
      fileReader (demoEnv Level.Safe) (demoState false false [["/", "a", "b"]]) "/a/bc"
        = (outsideAllowed, demoState false false [["/", "a", "b"]]) ∧
      (fileReader (demoEnv Level.Safe) (demoState false false [["/", "a", "b"]]) "/a/b/c").1
        = { success := true, responseOrErrorMessage := "contract D" } :=
  ⟨by simp [demoEnv],
   ((fileReader_allowed_directories (demoEnv Level.Safe)
      (demoState false false [["/", "a", "b"]]) "/a/bc").1 ["/", "a", "bc"]
      (by simp [demoEnv])).2.2.1
      (by simp [demoState]),
   by simp [fileReader, demoEnv, demoState, isAllowed, dirIsPrefix, stdEqual]⟩

end SolidityUpgrade

namespace CHCEncoder

/-! ## Concrete inputs -/

/-- Tells whether a negated constraint of the query is refuted on its face: its two sides
are the same term, or the query also holds the same equation unnegated. -/
def Constraint.refutedIn (q : Query) (c : Constraint) : Bool :=
  !c.positive &&
    (c.lhs == c.rhs || q.any (fun d => d.positive && d.lhs == c.lhs && d.rhs == c.rhs))

/-- A solver that reports unsatisfiable for a query holding a constraint refuted on its
face, and unknown otherwise. -/
def demoSolver : Solver := fun q =>
  if q.any (Constraint.refutedIn q) then Verdict.unsatisfiable else Verdict.unknown

/-- A contract with the state variable `x`. -/
def demoContract : ContractDefinition :=
  { id := 1, stateVariables := [{ name := "x", sort := SmtSort.Int }] }

/-- A function `f(uint a) returns (bool)`. -/
def demoFunction : FunctionDefinition :=
  { id := 2, name := "f", parameters := [{ name := "a", sort := SmtSort.Int }],
    returnParameters := [{ name := "r", sort := SmtSort.Bool }] }

theorem demoSolver_sound : SoundSolver demoSolver := by
  intro q hq hsat
  obtain ⟨ν, hν⟩ := hsat
  have hany : q.any (Constraint.refutedIn q) = true := by
    by_contra hn
    simp [demoSolver, hn] at hq
  obtain ⟨c, hc, href⟩ := List.any_eq_true.1 hany
  have hholds := hν c hc
  simp only [Constraint.refutedIn, Bool.and_eq_true, Bool.not_eq_true', Bool.or_eq_true,
    beq_iff_eq, List.any_eq_true] at href
  obtain ⟨hneg, hcase⟩ := href
  simp only [Constraint.holds, hneg, Bool.false_eq_true, if_false, decide_eq_true_eq] at hholds
  rcases hcase with heq | ⟨d, hd, ⟨hpos, hl⟩, hr⟩
  · exact hholds (by rw [heq])
  · have hdh := hν d hd
    simp only [Constraint.holds, hpos, if_true, decide_eq_true_eq] at hdh
    exact hholds (by rw [← hl, ← hr]; exact hdh)

/-- With the solver above, the assertion of `x = 1; assert(x == 1);` (no call) and the
assertion of `assert(1 == 1);` are proved safe. -/
theorem demoSolver_proves_without_call :
    7 ∈ (analyze demoSolver (visitContract CHC.initial demoContract)
      [Visit.function demoFunction, Visit.assignment "x" (Term.lit 1),
       Visit.assertion 7 (Term.var "x") (Term.lit 1)]).safeAssertions ∧
    7 ∈ (analyze demoSolver (visitContract CHC.initial demoContract)
      [Visit.function demoFunction,
       Visit.assertion 7 (Term.lit 1) (Term.lit 1)]).safeAssertions := by
  constructor <;> decide

/-! ## Properties of the CHC encoder -/

/-- C1: an assertion is among `safeAssertions()` only if a query issued for it got the
verdict unsatisfiable, the verdict for which `query` returns true: a visit of an
assertion adds it when the verdict is unsatisfiable and leaves the safe set as it was for
every other verdict, and after any traversal from the initial encoder the safe
assertions are exactly the targets of the queries answered unsatisfiable. -/
theorem safeAssertions_iff_query_unsat (solver : Solver) :
    (∀ (st : CHC) (target : Nat) (q : Query),
      ((query solver st target q).1 = true ↔ solver q = Verdict.unsatisfiable)) ∧
    (∀ (st : CHC) (target : Nat) (lhs rhs : Term),
      solver (assertionQuery st lhs rhs) = Verdict.unsatisfiable →
      target ∈ (visitAssert solver st target lhs rhs).safeAssertions) ∧
    (∀ (st : CHC) (target : Nat) (lhs rhs : Term),
      solver (assertionQuery st lhs rhs) ≠ Verdict.unsatisfiable →
      (visitAssert solver st target lhs rhs).safeAssertions = st.safeAssertions) ∧
    (∀ (visits : List Visit) (target : Nat),
      (target ∈ (analyze solver CHC.initial visits).safeAssertions ↔
        ∃ q, (target, q, Verdict.unsatisfiable) ∈ (analyze solver CHC.initial visits).issued ∧
          solver q = Verdict.unsatisfiable)) := by
  refine ⟨fun st target q => (query_fields solver st target q).2.2.2.2.2.2, ?_, ?_, ?_⟩
  · intro st target lhs rhs hv
    unfold CHC.safeAssertions
    rw [visitAssert_safeAssertions, if_pos hv]
    by_cases hm : target ∈ st.m_safeAssertions
    · rw [if_pos hm]
      exact hm
    · rw [if_neg hm]
      exact List.mem_append_right _ (List.mem_singleton.2 rfl)
  · intro st target lhs rhs hv
    unfold CHC.safeAssertions
    rw [visitAssert_safeAssertions, if_neg hv]
  · intro visits target
    have h := analyze_safeIffUnsat solver visits CHC.initial (initial_safeIffUnsat solver)
    unfold CHC.safeAssertions
    rw [h.2 target]
    constructor
    · rintro ⟨q, hq⟩
      exact ⟨q, hq, (h.1 _ hq).symm⟩
    · rintro ⟨q, hq, _⟩
      exact ⟨q, hq⟩

/-- C8: for every function and every encoder state reached by a traversal, the sort of
the summary predicate is the state-variable sorts, then the parameter sorts, then the
return-variable sorts, then the state-variable sorts again, and its arity is twice the
number of state variables plus the numbers of parameters and of return variables. -/
theorem summarySort_layout (solver : Solver) (visits : List Visit)
    (f : FunctionDefinition) :
    summarySort (analyze solver CHC.initial visits) f
      = (analyze solver CHC.initial visits).m_stateSorts
          ++ f.parameters.map VariableDeclaration.sort
          ++ f.returnParameters.map VariableDeclaration.sort
          ++ (analyze solver CHC.initial visits).m_stateSorts ∧
    (analyze solver CHC.initial visits).m_stateSorts
      = (analyze solver CHC.initial visits).m_stateVariables.map VariableDeclaration.sort ∧
    (createSummaryBlock (analyze solver CHC.initial visits) f).1.sort
      = summarySort (analyze solver CHC.initial visits) f ∧
    (createSummaryBlock (analyze solver CHC.initial visits) f).1.arity
      = 2 * (analyze solver CHC.initial visits).m_stateVariables.length
          + f.parameters.length + f.returnParameters.length := by
  have hagree : SortsAgree (analyze solver CHC.initial visits) :=
    analyze_sortsAgree solver visits CHC.initial rfl
  refine ⟨rfl, hagree, rfl, ?_⟩
  have hsort : (createSummaryBlock (analyze solver CHC.initial visits) f).1.sort
      = summarySort (analyze solver CHC.initial visits) f := rfl
  unfold Predicate.arity
  rw [hsort]
  unfold summarySort
  rw [hagree]
  simp only [List.length_append, List.length_map]
  omega

/-- C9: for a function whose body is `x = 1; externalCall(); assert(x == 1);` with `x` a
state variable, the unknown call gives `x` a fresh index on which no constraint lies, the
query issued for the assertion has a model, and with a solver that reports unsatisfiable
only for queries without a model the assertion is not among `safeAssertions()`. -/
theorem unknownCall_assertion_not_safe (solver : Solver) (st : CHC)
    (f : FunctionDefinition) (x : String) (target : Nat)
    (hsound : SoundSolver solver)
    (hstate : ∃ v ∈ st.m_stateVariables, v.name = x)
    (hnew : target ∉ st.safeAssertions) :
    Satisfiable (assertionQuery
      (analyze solver st [Visit.function f, Visit.assignment x (Term.lit 1), Visit.unknownCall])
      (Term.var x) (Term.lit 1)) ∧
    target ∉ (analyze solver st
      [Visit.function f, Visit.assignment x (Term.lit 1), Visit.unknownCall,
       Visit.assertion target (Term.var x) (Term.lit 1)]).safeAssertions := by
  have hquery : assertionQuery
      (analyze solver st [Visit.function f, Visit.assignment x (Term.lit 1), Visit.unknownCall])
      (Term.var x) (Term.lit 1)
      = [{ positive := true, lhs := SymTerm.sym x (st.indices x + 1), rhs := SymTerm.lit 1 },
         { positive := false, lhs := SymTerm.sym x (st.indices x + 1 + 1),
           rhs := SymTerm.lit 1 }] := by
    simp [analyze, visit, visitFunction, visitAssignment, unknownFunctionCall, eraseKnowledge,
      assertionQuery, currentValue, hstate]
  have hsat : Satisfiable (assertionQuery
      (analyze solver st [Visit.function f, Visit.assignment x (Term.lit 1), Visit.unknownCall])
      (Term.var x) (Term.lit 1)) := by
    rw [hquery]
    refine ⟨fun _ index => if index = st.indices x + 1 then 1 else 0, ?_⟩
    intro c hc
    simp only [List.mem_cons, List.mem_singleton, List.not_mem_nil, or_false] at hc
    rcases hc with rfl | rfl
    · simp [Constraint.holds, SymTerm.eval]
    · simp [Constraint.holds, SymTerm.eval]
  refine ⟨hsat, ?_⟩
  have hverdict : solver (assertionQuery
      (analyze solver st [Visit.function f, Visit.assignment x (Term.lit 1), Visit.unknownCall])
      (Term.var x) (Term.lit 1)) ≠ Verdict.unsatisfiable := fun h => hsound _ h hsat
  have hrun : analyze solver st
      [Visit.function f, Visit.assignment x (Term.lit 1), Visit.unknownCall,
       Visit.assertion target (Term.var x) (Term.lit 1)]
      = visitAssert solver
          (analyze solver st
            [Visit.function f, Visit.assignment x (Term.lit 1), Visit.unknownCall])
          target (Term.var x) (Term.lit 1) := rfl
  unfold CHC.safeAssertions at hnew ⊢
  rw [hrun, visitAssert_safeAssertions, if_neg hverdict]
  exact hnew

/-- Instance of C9 with a sound solver that does prove assertions: for the contract with
the state variable `x`, the assertion of `x = 1; assert(x == 1);` is proved safe, and
with the unknown call in between it is not. -/
theorem unknownCall_assertion_not_safe_witness :
    (SoundSolver demoSolver ∧
      (∃ v ∈ (visitContract CHC.initial demoContract).m_stateVariables, v.name = "x") ∧
      7 ∉ (visitContract CHC.initial demoContract).safeAssertions) ∧
    7 ∈ (analyze demoSolver (visitContract CHC.initial demoContract)
      [Visit.function demoFunction, Visit.assignment "x" (Term.lit 1),
       Visit.assertion 7 (Term.var "x") (Term.lit 1)]).safeAssertions ∧
    7 ∉ (analyze demoSolver (visitContract CHC.initial demoContract)
      [Visit.function demoFunction, Visit.assignment "x" (Term.lit 1), Visit.unknownCall,
       Visit.assertion 7 (Term.var "x") (Term.lit 1)]).safeAssertions :=
  ⟨⟨demoSolver_sound,
    ⟨{ name := "x", sort := SmtSort.Int }, by simp [visitContract, demoContract], rfl⟩,
    by simp [visitContract, reset, CHC.initial, CHC.safeAssertions]⟩,
   demoSolver_proves_without_call.1,
   (unknownCall_assertion_not_safe demoSolver (visitContract CHC.initial demoContract)
      demoFunction "x" 7 demoSolver_sound
      ⟨{ name := "x", sort := SmtSort.Int }, by simp [visitContract, demoContract], rfl⟩
      (by simp [visitContract, reset, CHC.initial, CHC.safeAssertions])).2⟩

end CHCEncoder
